import Mathlib

/-!
Verification of the answer-scoring and keyword-extraction pipeline of
`streamlit_app.py` (the "AI interview coach" application).

The Python functions are shallowly embedded as executable Lean definitions.
Text is modelled as `String` (a list of characters); per-character operations
(lowercasing, the character classes of the regular expressions used by the
source) are modelled over ASCII codes, matching the source's regex classes
`\w`, `[A-Za-z]`, `[A-Za-z0-9\-\+/]`, `[ \t]` and `\s`.  Numeric scores are
modelled as rationals.  The one external numeric dependency of the scorer,
`textstat.flesch_kincaid_grade`, is a third-party library call; it is
modelled as an explicit parameter `gr : String → Option ℚ` (`none` models
the exception path that the source catches, `some g` models a returned
grade), and theorems quantify over it.
-/

/-- ASCII code of a character. -/
def charCode (c : Char) : ℕ := c.toNat

/-- Lower-case ASCII letter (`[a-z]`). -/
def isLowerAlpha (c : Char) : Bool := 97 ≤ charCode c && charCode c ≤ 122

/-- Upper-case ASCII letter (`[A-Z]`). -/
def isUpperAlpha (c : Char) : Bool := 65 ≤ charCode c && charCode c ≤ 90

/-- ASCII digit (`[0-9]`). -/
def isDigitCh (c : Char) : Bool := 48 ≤ charCode c && charCode c ≤ 57

/-- Word character of the regex class `\w` (ASCII fragment):
letters, digits and underscore. -/
def isWordCh (c : Char) : Bool :=
  isLowerAlpha c || isUpperAlpha c || isDigitCh c || charCode c == 95

/-- Whitespace of the regex class `\s` (ASCII fragment). -/
def isSpaceCh (c : Char) : Bool :=
  charCode c == 32 || charCode c == 9 || charCode c == 10 ||
  charCode c == 13 || charCode c == 11 || charCode c == 12

/-- Space or horizontal tab (the regex class `[ \t]`). -/
def isSpaceTab (c : Char) : Bool := charCode c == 32 || charCode c == 9

/-- Python `str.lower` on one character (ASCII fragment). -/
def lowerCh (c : Char) : Char :=
  if 65 ≤ charCode c && charCode c ≤ 90 then Char.ofNat (charCode c + 32) else c

/-- Python `str.lower` (ASCII fragment). -/
def lowerL (l : List Char) : List Char := l.map lowerCh

/-- Maximal runs of characters satisfying `p` (auxiliary, the accumulator
holds the current run reversed). -/
def splitRunsAux (p : Char → Bool) : List Char → List Char → List (List Char)
  | [], acc => if acc.isEmpty then [] else [acc.reverse]
  | c :: cs, acc =>
      if p c then splitRunsAux p cs (c :: acc)
      else if acc.isEmpty then splitRunsAux p cs []
      else acc.reverse :: splitRunsAux p cs []

/-- Maximal runs of characters satisfying `p`; models `re.findall` of a
"one or more characters of a class" pattern. -/
def splitRuns (p : Char → Bool) (l : List Char) : List (List Char) :=
  splitRunsAux p l []

/-- The word tokens of a text: maximal runs of `\w` characters, i.e. the
matches of `re.findall(r"\b\w+\b", text)`. -/
def wordsL (l : List Char) : List (List Char) := splitRuns isWordCh l

/-- Keep the first occurrence of each element, dropping later duplicates
(the order Python dictionaries and `dict.fromkeys`-style dedup preserve). -/
def firstDedup {α : Type} [DecidableEq α] : List α → List α
  | [] => []
  | x :: xs => x :: (firstDedup xs).filter (fun y => y ≠ x)

/-- Substring test: Python's `pat in t`. -/
def containsSub (pat : List Char) : List Char → Bool
  | [] => pat.isEmpty
  | c :: rest => ((c :: rest).take pat.length == pat) || containsSub pat rest

/-- The fixed filler-phrase set `FILLERS` of the source, in listing order
(the source stores it as a set; only membership and a sum over it are used,
so the order is irrelevant). -/
def FILLERS : List String :=
  ["um", "uh", "like", "you know", "sort of", "kind of",
   "basically", "actually", "literally", "I guess"]

/-- Word-ness of the first character of a pattern (used for the leading
`\b` of the per-phrase patterns, backslash-b + escaped phrase + backslash-b). -/
def headIsWord (f : List Char) : Bool :=
  match f with
  | [] => false
  | fc :: _ => isWordCh fc

/-- Word-ness of the last character of a pattern (for the trailing `\b`). -/
def lastIsWord (f : List Char) : Bool :=
  match f.getLast? with
  | none => false
  | some lc => isWordCh lc

/-- Count the non-overlapping, left-to-right matches of the regex
formed as backslash-b + the escaped phrase `f` + backslash-b in a text, as
`len(re.findall(...))` does.
`prevWord` records whether the character before the current position is a
word character (false at the start of the text); `skip` is the number of
remaining characters of a previous match still to be consumed. -/
def countFillerAux (f : List Char) : List Char → Bool → ℕ → ℕ
  | [], _, _ => 0
  | c :: rest, _, Nat.succ skip => countFillerAux f rest (isWordCh c) skip
  | c :: rest, prevWord, 0 =>
      if (((c :: rest).take f.length == f)
            && (prevWord != headIsWord f)
            && (lastIsWord f != (headIsWord ((c :: rest).drop f.length)))) then
        1 + countFillerAux f rest (isWordCh c) (f.length - 1)
      else countFillerAux f rest (isWordCh c) 0

/-- `detect_fillers`: the text is lowercased, then each filler phrase is
counted with the (case-sensitive) whole-word pattern built from the phrase
verbatim — note that the phrase `"I guess"` keeps its capital `I`. -/
def detect_fillers (text : String) : ℕ :=
  (FILLERS.map (fun f => countFillerAux f.data (lowerL text.data) false 0)).sum

/-- The `STAR_KEYS` keyword families of the source. -/
def STAR_S : List String := ["situation", "background", "context"]

/-- `STAR_KEYS["t"]`. -/
def STAR_T : List String := ["task", "goal", "objective", "responsibility"]

/-- `STAR_KEYS["a"]`. -/
def STAR_A : List String := ["action", "approach", "what I did", "how I did"]

/-- `STAR_KEYS["r"]`. -/
def STAR_R : List String := ["result", "outcome", "impact", "metric", "learned"]

/-- One element of `star_coverage`: 1.0 if any keyword of the family occurs
as a substring of the lowercased answer, else 0.0. -/
def coverVal (kws : List String) (t : List Char) : ℚ :=
  if kws.any (fun k => containsSub k.data t) then 1 else 0

/-- `structure_score`: the weighted sum of the four STAR coverage flags. -/
def structure_score (a : String) : ℚ :=
  let t := lowerL a.data
  0.2 * coverVal STAR_S t + 0.25 * coverVal STAR_T t +
    0.3 * coverVal STAR_A t + 0.25 * coverVal STAR_R t

/-- `relevance`: lowercase word-set overlap of question and answer,
`min(1.0, overlap / max(5, len(qt)*0.6))`, and 0.0 if the question has no
word tokens. -/
def relevance (q a : String) : ℚ :=
  let qt := firstDedup (wordsL (lowerL q.data))
  let aw := wordsL (lowerL a.data)
  if qt.isEmpty then 0
  else min 1 (((qt.filter (fun w => aw.contains w)).length : ℚ) /
              max 5 ((qt.length : ℚ) * 0.6))

/-- The word-count band formula of `conciseness`. -/
def concWC (words : ℕ) : ℚ :=
  if words = 0 then 0
  else if 150 ≤ words ∧ words ≤ 300 then 1
  else if words < 150 then max 0 ((words : ℚ) / 150)
  else max 0 (1 - ((words : ℚ) - 300) / 400)

/-- `conciseness`: counts the `\b\w+\b` word tokens of the answer and
applies the band formula. -/
def conciseness (a : String) : ℚ := concWC (wordsL a.data).length

/-- `readability`: the branch structure of the source on the grade returned
by `textstat.flesch_kincaid_grade`; `gr a = none` models the exception path
(caught and defaulted to 0.6). -/
def readability (gr : String → Option ℚ) (a : String) : ℚ :=
  match gr a with
  | none => 0.6
  | some g =>
      if g ≤ 0 then 0.5
      else if 7 ≤ g ∧ g ≤ 11 then 1
      else if g < 7 then max 0.6 (g / 7)
      else max 0.3 (1 - (g - 11) / 10)

/-- `filler_penalty`: `min(0.2, (filler_count/word_count)*20)`, 0 for a
word-less answer. -/
def filler_penalty (a : String) : ℚ :=
  let words := (wordsL a.data).length
  if words = 0 then 0
  else min 0.2 (((detect_fillers a : ℚ) / (words : ℚ)) * 20)

/-- `token_count`: `int(word_count * 1.33)`. -/
def token_count (a : String) : ℕ := (wordsL a.data).length * 133 / 100

/-- Python's `round(x, 1)`: rounding to one decimal place. -/
def round1 (x : ℚ) : ℚ := ((round (10 * x) : ℤ) : ℚ) / 10

/-- The combining step of `overall_score`:
`base = 0.3*rel + 0.3*stru + 0.2*conc + 0.2*read`,
`base = max(0, min(1, base - pen))`, reported as `round(base*100, 1)`. -/
def combine (rel stru conc read pen : ℚ) : ℚ :=
  round1 (max 0 (min 1 (0.3 * rel + 0.3 * stru + 0.2 * conc + 0.2 * read - pen)) * 100)

/-- The `Scores` record returned by `overall_score` (the Python dict with
fixed keys; `structure` is a Lean keyword, hence the primed field name). -/
structure Scores where
  relevance : ℚ
  structure' : ℚ
  conciseness : ℚ
  readability : ℚ
  tokens_est : ℕ
  final : ℚ
  filler_penalty : ℚ
  deriving Repr, DecidableEq

/-- `overall_score`: computes the five sub-scores and combines them; every
reported sub-score is scaled by 100 and rounded to one decimal place. -/
def overall_score (gr : String → Option ℚ) (q a : String) : Scores :=
  { relevance := round1 (relevance q a * 100)
    structure' := round1 (structure_score a * 100)
    conciseness := round1 (conciseness a * 100)
    readability := round1 (readability gr a * 100)
    tokens_est := token_count a
    final := combine (relevance q a) (structure_score a) (conciseness a)
               (readability gr a) (filler_penalty a)
    filler_penalty := round1 (filler_penalty a * 100) }

/-! ### Keyword extraction (`_clean_jd_text`, `_tokenize_keep_acronyms`,
`_bigrams`, `_score_candidates`, `derive_keywords`) -/

/-- An ASCII apostrophe as a string (used by two stop-word entries). -/
def apos : String := String.mk [Char.ofNat 39]

/-- The `_STOP` stop-word set of the source, in listing order (a Python
set; only membership is used, so order is irrelevant). -/
def STOP : List String :=
  ["a", "an", "the", "and", "or", "for", "with", "from", "this", "that",
   "these", "those", "to", "of", "in", "on", "by", "as", "is", "are", "be",
   "will", "would", "could", "should", "can", "may", "might", "must",
   "your", "you", "you" ++ apos ++ "ll", "we", "we" ++ apos ++ "ll",
   "our", "they", "their",
   "role", "roles", "responsibility", "responsibilities",
   "requirement", "requirements", "about", "if", "have", "has", "had",
   "do", "did", "done", "make", "made", "get", "got", "work", "working",
   "team", "teams", "department", "company", "organisation", "organization",
   "experience", "experiences", "strong", "excellent", "good", "ability",
   "etc", "using", "use", "used", "across", "within"]

/-- The `_WHITELIST` acronym set of the source, in listing order.  The
source stores it as a Python set and, in `derive_keywords`, iterates over
it to build `tech_hits`; the iteration order of a Python string set is
ambient state (hash randomisation), so functions below that iterate it
take the order as an explicit list parameter, while membership tests use
this fixed list. -/
def WHITELIST : List String :=
  ["sql", "aws", "gcp", "azure", "sap", "crm", "seo", "ppc", "ga4", "gdpr",
   "kpi", "okr", "ui", "ux", "qa", "api", "ml", "nlp", "etl", "bi",
   "ci", "cd", "cicd", "devops", "saas", "b2b", "b2c", "b2g", "pm", "ba",
   "kpis", "okrs", "sme", "smes"]

/-- The `_PREFERENCE` term tuple of the source, in listing order. -/
def PREFERENCE : List String :=
  ["stakeholder", "management", "roadmap", "discovery", "experimentation",
   "go-to-market", "customer", "retention", "acquisition", "churn",
   "pipeline", "forecast", "data", "quality", "governance", "privacy",
   "security", "gdpr", "analytics", "dashboard", "reporting", "product",
   "design", "research", "usability", "a/b", "experiments", "engineering",
   "architecture", "scalability", "reliability", "marketing", "campaign",
   "seo", "ppc", "paid", "creative", "salesforce", "hubspot", "tableau",
   "power", "bi", "excel", "python", "java", "react", "node", "sql", "aws"]

/-- `STOP` as character lists. -/
def STOPL : List (List Char) := STOP.map String.data

/-- `WHITELIST` as character lists. -/
def WHITELISTL : List (List Char) := WHITELIST.map String.data

/-- `PREFERENCE` as character lists. -/
def PREFL : List (List Char) := PREFERENCE.map String.data

/-- One pass of `re.sub(pattern, " ", text)`: scan left to right, replace
each non-overlapping match (whose length `m` reports) by a single space.
`prevWord` tracks the word-ness of the previous original character (for
`\b` assertions); `skip` counts remaining characters of a match already
replaced. -/
def subAux (m : List Char → Bool → Option ℕ) : List Char → Bool → ℕ → List Char
  | [], _, _ => []
  | c :: rest, _, Nat.succ skip => subAux m rest (isWordCh c) skip
  | c :: rest, prevWord, 0 =>
      match m (c :: rest) prevWord with
      | some n => ' ' :: subAux m rest (isWordCh c) (n - 1)
      | none => c :: subAux m rest (isWordCh c) 0

/-- Run one substitution pass from the start of the text. -/
def applySub (m : List Char → Bool → Option ℕ) (l : List Char) : List Char :=
  subAux m l false 0

/-- Matcher for `(?i)\b w1 \s+ w2 \b` (both words lowercase, starting and
ending with word characters), returning the match length at the current
position. -/
def matchCIWordSeq (w1 w2 : List Char) (t : List Char) (prevWord : Bool) :
    Option ℕ :=
  if prevWord then none
  else if (t.take w1.length).map lowerCh == w1 then
    let r1 := t.drop w1.length
    let ws := r1.takeWhile isSpaceCh
    if ws.isEmpty then none
    else
      let r2 := r1.drop ws.length
      if (r2.take w2.length).map lowerCh == w2 then
        if headIsWord (r2.drop w2.length) then none
        else some (w1.length + ws.length + w2.length)
      else none
  else none

/-- Matcher for `(?i)\b w \b` for a literal `w` (lowercase, starting and
ending with word characters). -/
def matchCIWord (w : List Char) (t : List Char) (prevWord : Bool) : Option ℕ :=
  if prevWord then none
  else if (t.take w.length).map lowerCh == w then
    if headIsWord (t.drop w.length) then none
    else some w.length
  else none

/-- Matcher for `[ \t]+`. -/
def matchSpaceTabRun (t : List Char) (_ : Bool) : Option ℕ :=
  let ws := t.takeWhile isSpaceTab
  if ws.isEmpty then none else some ws.length

/-- The contracted `you’ll` (typographic apostrophe, U+2019). -/
def youllCurly : List Char := ['y', 'o', 'u', Char.ofNat 8217, 'l', 'l']

/-- The contracted `you'll` (ASCII apostrophe). -/
def youllAscii : List Char := ['y', 'o', 'u', Char.ofNat 39, 'l', 'l']

/-- `_clean_jd_text`: strip `you will` / `we will` / `you’ll` / `you'll`
case-insensitively (whole-word), then collapse runs of spaces and tabs. -/
def cleanJD (l : List Char) : List Char :=
  applySub matchSpaceTabRun
    (applySub (matchCIWord youllAscii)
      (applySub (matchCIWord youllCurly)
        (applySub (matchCIWordSeq ("we".data) ("will".data))
          (applySub (matchCIWordSeq ("you".data) ("will".data)) l))))

/-- Token character of the tail class `[A-Za-z0-9\-\+/]` of the tokenizer
regex, applied to lowercased text (so `[a-z0-9\-\+/]`). -/
def isTokChar (c : Char) : Bool :=
  isLowerAlpha c || isDigitCh c || charCode c == 45 || charCode c == 43 ||
    charCode c == 47

/-- `_tokenize_keep_acronyms`: the matches of
`re.findall` of a letter followed by one or more characters of the class
`[A-Za-z0-9\-\+/]`, applied to `text.lower()` — within each
maximal run of token characters, the (greedy) match starts at the first
letter and runs to the end of the run, and needs at least two characters. -/
def tokenizeL (l : List Char) : List (List Char) :=
  (splitRuns isTokChar (lowerL l)).filterMap (fun r =>
    let s := r.dropWhile (fun c => !isLowerAlpha c)
    if 2 ≤ s.length then some s else none)

/-- `_bigrams`: adjacent token pairs joined by one space. -/
def bigramsL : List (List Char) → List (List Char)
  | a :: b :: rest => (a ++ ' ' :: b) :: bigramsL (b :: rest)
  | _ => []

/-- Number of occurrences of `w` in `l` (a `Counter` count). -/
def countOf (l : List (List Char)) (w : List Char) : ℕ :=
  (l.filter (fun x => x == w)).length

/-- The unigram score after `_score_candidates`: stop words not on the
whitelist are zeroed, then whitelisted words are doubled. -/
def uniScore (toks : List (List Char)) (w : List Char) : ℕ :=
  if STOPL.contains w && !(WHITELISTL.contains w) then 0
  else if WHITELISTL.contains w then 2 * countOf toks w
  else countOf toks w

/-- The bigram score after `_score_candidates`: doubled when any
preference term occurs as a substring of the bigram. -/
def bigScore (bigs : List (List Char)) (p : List Char) : ℕ :=
  if PREFL.any (fun pref => containsSub pref p) then 2 * countOf bigs p
  else countOf bigs p

/-- The `(key, score)` items of the unigram counter, in first-occurrence
(insertion) order. -/
def cuItems (toks : List (List Char)) : List (List Char × ℕ) :=
  (firstDedup toks).map (fun w => (w, uniScore toks w))

/-- The `(key, score)` items of the bigram counter, in first-occurrence
(insertion) order. -/
def cbItems (bigs : List (List Char)) : List (List Char × ℕ) :=
  (firstDedup bigs).map (fun p => (p, bigScore bigs p))

/-- Comparison used to model `Counter.most_common`: larger count first,
ties broken by insertion index (Python's sort is stable). -/
def mcLe (a b : ℕ × (List Char × ℕ)) : Bool :=
  Nat.blt b.2.2 a.2.2 || (Nat.beq a.2.2 b.2.2 && Nat.ble a.1 b.1)

/-- Insert into a sorted list (insertion sort step). -/
def insertSorted {α : Type} (le : α → α → Bool) (x : α) : List α → List α
  | [] => [x]
  | y :: ys => if le x y then x :: y :: ys else y :: insertSorted le x ys

/-- Insertion sort. -/
def sortByB {α : Type} (le : α → α → Bool) (l : List α) : List α :=
  l.foldr (insertSorted le) []

/-- `Counter.most_common(n)`: items sorted by count descending, ties in
insertion order, truncated to `n`. -/
def mostCommon (items : List (List Char × ℕ)) (n : ℕ) : List (List Char × ℕ) :=
  ((sortByB mcLe items.enum).map Prod.snd).take n

/-- Python `str.split()` (no separator): maximal runs of non-whitespace. -/
def pySplitL (l : List Char) : List (List Char) :=
  splitRuns (fun c => !isSpaceCh c) l

/-- The final filter of `derive_keywords`: no space-separated part of the
candidate phrase may be a stop word. -/
def okTerm (term : List Char) : Bool :=
  (pySplitL term).all (fun p => !(STOPL.contains p))

/-- The body of `derive_keywords` up to (and including) the `cleaned`
list: clean, tokenize, filter short tokens, score uni/bigrams, select top
bigrams (score > 1, cap 20), whitelisted acronym hits in whitelist
iteration order `wlOrder`, top remaining unigrams (score > 1, cap 30,
excluding stop words and words used by selected bigrams), then the
stop-word part filter and first-occurrence dedup. -/
def deriveCleanedL (wlOrder : List (List Char)) (text : List Char) :
    List (List Char) :=
  let toks := (tokenizeL (cleanJD text)).filter
    (fun w => 3 ≤ w.length || WHITELISTL.contains w)
  let bigs := bigramsL toks
  let top_bigrams := ((mostCommon (cbItems bigs) 20).filter
    (fun wc => 1 < wc.2)).map Prod.fst
  let used := (top_bigrams.map pySplitL).flatten
  let top_unigrams := ((mostCommon (cuItems toks) 30).filter
    (fun wc => 1 < wc.2 && !(STOPL.contains wc.1) && !(used.contains wc.1))).map
      Prod.fst
  let tech_hits := wlOrder.filter (fun w => toks.contains w)
  firstDedup ((top_bigrams ++ tech_hits ++ top_unigrams).filter okTerm)

/-- The sentinel keyword of the no-survivors fallback. -/
def SENTINEL : String := "key responsibilities"

/-- `derive_keywords(text, k)`, with the iteration order of the
`_WHITELIST` set passed explicitly as `wlOrder`. -/
def derive_keywords (wlOrder : List String) (text : String) (k : ℕ) :
    List String :=
  let cleaned := deriveCleanedL (wlOrder.map String.data) text.data
  if cleaned.isEmpty then [SENTINEL] else (cleaned.take k).map String.mk

/-! ### Question generation (`generate_spec_questions`) -/

/-- The output mapping of `generate_spec_questions` (a Python dict with
the three fixed category keys). -/
structure QuestionPool where
  behavioral : List String
  situational : List String
  technical : List String
  deriving Repr, DecidableEq

/-- The behavioral question templates (`.format` modelled by
concatenation around the keyword). -/
def behav_templates : List (String → String) :=
  [fun kw => "Tell me about a time you delivered results related to " ++ kw
      ++ ". What was the impact?",
   fun kw => "Describe a challenging situation involving " ++ kw
      ++ ". How did you handle it?",
   fun kw => "Give an example of when you improved a process around " ++ kw
      ++ ". What changed?"]

/-- The situational question templates. -/
def situ_templates : List (String → String) :=
  [fun kw => "You’ve joined a team where " ++ kw
      ++ " is underperforming. What do you do in the first 30 days?",
   fun kw => "A key dependency for " ++ kw
      ++ " slips. How do you reprioritise and communicate risk?",
   fun kw => "How would you measure success for initiatives involving " ++ kw
      ++ "?"]

/-- The technical question templates. -/
def tech_templates : List (String → String) :=
  [fun kw => "Walk me through how you would design or implement a solution for "
      ++ kw ++ ".",
   fun kw => "What trade-offs would you consider when scaling " ++ kw ++ "?",
   fun kw => "How would you diagnose and fix recurring issues related to "
      ++ kw ++ "?"]

/-- One category of `generate_spec_questions`: keyword `i` is formatted
with template `i mod 3`, then the list is deduplicated preserving order
and truncated to 12. -/
def genCat (templates : List (String → String)) (kws : List String) :
    List String :=
  (firstDedup (kws.enum.map
    (fun ik => (templates.getD (ik.1 % templates.length) id) ik.2))).take 12

/-- `generate_spec_questions`: derive up to 8 keywords and expand each into
one question per category. -/
def generate_spec_questions (wlOrder : List String) (raw : String) :
    QuestionPool :=
  let kws := derive_keywords wlOrder raw 8
  { behavioral := genCat behav_templates kws
    situational := genCat situ_templates kws
    technical := genCat tech_templates kws }

/-! ### Helper lemmas -/

theorem round1_mono {x y : ℚ} (h : x ≤ y) : round1 x ≤ round1 y := by
  unfold round1
  have h2 : round (10 * x) ≤ round (10 * y) := by
    rw [round_eq, round_eq]; exact Int.floor_le_floor (by linarith)
  have h3 : ((round (10 * x) : ℤ) : ℚ) ≤ ((round (10 * y) : ℤ) : ℚ) := by
    exact_mod_cast h2
  linarith

theorem round1_nat (n : ℕ) : round1 ((n : ℕ) : ℚ) = n := by
  unfold round1
  rw [show (10 : ℚ) * n = ((10 * n : ℕ) : ℚ) by push_cast; ring, round_natCast]
  push_cast
  rw [mul_comm]
  exact mul_div_cancel_right₀ _ (by norm_num)

theorem round1_scale_bounds {x : ℚ} (h0 : 0 ≤ x) (h1 : x ≤ 1) :
    0 ≤ round1 (x * 100) ∧ round1 (x * 100) ≤ 100 := by
  constructor
  · have := round1_mono (show (((0:ℕ):ℚ)) ≤ x * 100 by push_cast; nlinarith)
    rw [round1_nat 0] at this; exact_mod_cast this
  · have := round1_mono (show x * 100 ≤ (((100:ℕ):ℚ)) by push_cast; nlinarith)
    rw [round1_nat 100] at this; exact_mod_cast this

theorem readability_bounds (gr : String → Option ℚ) (a : String) :
    3 / 10 ≤ readability gr a ∧ readability gr a ≤ 1 := by
  unfold readability
  cases gr a with
  | none => norm_num
  | some g =>
      dsimp only
      split_ifs with h1 h2 h3
      · norm_num
      · norm_num
      · constructor
        · exact le_trans (by norm_num : (3:ℚ)/10 ≤ 0.6) (le_max_left _ _)
        · apply max_le (by norm_num)
          rw [div_le_one (by norm_num)]; linarith
      · constructor
        · exact le_trans (by norm_num : (3:ℚ)/10 ≤ 0.3) (le_max_left _ _)
        · apply max_le (by norm_num)
          push_neg at h2 h3
          have h11 : 11 < g := h2 h3
          linarith [div_nonneg (by linarith : (0:ℚ) ≤ g - 11)
            (by norm_num : (0:ℚ) ≤ 10)]

theorem relevance_bounds (q a : String) :
    0 ≤ relevance q a ∧ relevance q a ≤ 1 := by
  simp only [relevance]
  split_ifs with h
  · norm_num
  · constructor
    · apply le_min (by norm_num)
      apply div_nonneg (Nat.cast_nonneg _)
      exact le_trans (by norm_num) (le_max_left 5 _)
    · exact min_le_left _ _

theorem coverVal_bounds (kws : List String) (t : List Char) :
    0 ≤ coverVal kws t ∧ coverVal kws t ≤ 1 := by
  unfold coverVal; split_ifs <;> norm_num

theorem structure_score_bounds (a : String) :
    0 ≤ structure_score a ∧ structure_score a ≤ 1 := by
  unfold structure_score
  obtain ⟨s0, s1⟩ := coverVal_bounds STAR_S (lowerL a.data)
  obtain ⟨t0, t1⟩ := coverVal_bounds STAR_T (lowerL a.data)
  obtain ⟨a0, a1⟩ := coverVal_bounds STAR_A (lowerL a.data)
  obtain ⟨r0, r1⟩ := coverVal_bounds STAR_R (lowerL a.data)
  constructor <;> nlinarith

theorem concWC_bounds (n : ℕ) : 0 ≤ concWC n ∧ concWC n ≤ 1 := by
  unfold concWC
  split_ifs with h1 h2 h3
  · norm_num
  · norm_num
  · refine ⟨le_max_left _ _, max_le (by norm_num) ?_⟩
    rw [div_le_one (by norm_num)]
    exact_mod_cast le_of_lt (lt_of_lt_of_le h3 (by norm_num))
  · refine ⟨le_max_left _ _, max_le (by norm_num) ?_⟩
    push_neg at h2 h3
    have h300 : (300 : ℚ) ≤ (n : ℚ) := by exact_mod_cast (h2 h3).le
    have h4 : 0 ≤ ((n : ℚ) - 300) / 400 := div_nonneg (by linarith) (by norm_num)
    linarith

theorem conciseness_bounds (a : String) :
    0 ≤ conciseness a ∧ conciseness a ≤ 1 := concWC_bounds _

theorem filler_penalty_bounds (a : String) :
    0 ≤ filler_penalty a ∧ filler_penalty a ≤ 1 / 5 := by
  simp only [filler_penalty]
  split_ifs with h
  · norm_num
  · constructor
    · apply le_min (by norm_num)
      apply mul_nonneg (div_nonneg (Nat.cast_nonneg _) (Nat.cast_nonneg _))
      norm_num
    · exact le_trans (min_le_left _ _) (by norm_num)

theorem clamp_bounds (u : ℚ) : 0 ≤ max 0 (min 1 u) ∧ max 0 (min 1 u) ≤ 1 :=
  ⟨le_max_left _ _, max_le (by norm_num) (min_le_left _ _)⟩

theorem combine_bounds (rel stru conc read pen : ℚ) :
    0 ≤ combine rel stru conc read pen ∧ combine rel stru conc read pen ≤ 100 := by
  unfold combine
  exact round1_scale_bounds (clamp_bounds _).1 (clamp_bounds _).2

/-! ### C1 -/

/-- C1: for every question, every answer and every behaviour of the
readability backend, the `Scores` record returned by `overall_score` has
`final` in [0,100], each of the relevance, structure, conciseness and
readability sub-scores in [0,100], and `filler_penalty` in [0,20]. -/
theorem overall_score_bounds (gr : String → Option ℚ) (q a : String) :
    0 ≤ (overall_score gr q a).final ∧ (overall_score gr q a).final ≤ 100 ∧
    0 ≤ (overall_score gr q a).relevance ∧ (overall_score gr q a).relevance ≤ 100 ∧
    0 ≤ (overall_score gr q a).structure' ∧ (overall_score gr q a).structure' ≤ 100 ∧
    0 ≤ (overall_score gr q a).conciseness ∧ (overall_score gr q a).conciseness ≤ 100 ∧
    0 ≤ (overall_score gr q a).readability ∧ (overall_score gr q a).readability ≤ 100 ∧
    0 ≤ (overall_score gr q a).filler_penalty ∧
      (overall_score gr q a).filler_penalty ≤ 20 := by
  simp only [overall_score]
  obtain ⟨f0, f1⟩ := combine_bounds (relevance q a) (structure_score a)
    (conciseness a) (readability gr a) (filler_penalty a)
  obtain ⟨r0, r1⟩ := round1_scale_bounds (relevance_bounds q a).1 (relevance_bounds q a).2
  obtain ⟨s0, s1⟩ := round1_scale_bounds (structure_score_bounds a).1 (structure_score_bounds a).2
  obtain ⟨c0, c1⟩ := round1_scale_bounds (conciseness_bounds a).1 (conciseness_bounds a).2
  obtain ⟨d0, d1⟩ := round1_scale_bounds
    (le_trans (by norm_num) (readability_bounds gr a).1) (readability_bounds gr a).2
  have p0 : 0 ≤ round1 (filler_penalty a * 100) := by
    have := round1_mono (show (((0:ℕ):ℚ)) ≤ filler_penalty a * 100 by
      push_cast; nlinarith [(filler_penalty_bounds a).1])
    rw [round1_nat 0] at this; exact_mod_cast this
  have p1 : round1 (filler_penalty a * 100) ≤ 20 := by
    have := round1_mono (show filler_penalty a * 100 ≤ (((20:ℕ):ℚ)) by
      push_cast; nlinarith [(filler_penalty_bounds a).2])
    rw [round1_nat 20] at this; exact_mod_cast this
  exact ⟨f0, f1, r0, r1, s0, s1, c0, c1, d0, d1, p0, p1⟩

/-! ### C2 -/

theorem round1_zero' : round1 0 = 0 := by
  unfold round1
  rw [show (10 : ℚ) * 0 = ((0 : ℤ) : ℚ) by norm_num, round_intCast]
  norm_num

theorem relevance_empty_answer (q : String) : relevance q "" = 0 := by
  simp only [relevance]
  rw [show wordsL (lowerL ("".data)) = [] from rfl]
  split_ifs with h
  · rfl
  · rw [List.filter_eq_nil_iff.mpr (fun a _ => by
      rw [show List.contains ([] : List (List Char)) a = false from rfl]; simp)]
    norm_num [min_def]

theorem structure_score_empty : structure_score "" = 0 := by
  simp only [structure_score]
  rw [show lowerL ("".data) = [] from rfl]
  rw [show coverVal STAR_S [] = 0 from by simp only [coverVal]; exact if_neg (by decide)]
  rw [show coverVal STAR_T [] = 0 from by simp only [coverVal]; exact if_neg (by decide)]
  rw [show coverVal STAR_A [] = 0 from by simp only [coverVal]; exact if_neg (by decide)]
  rw [show coverVal STAR_R [] = 0 from by simp only [coverVal]; exact if_neg (by decide)]
  norm_num

theorem conciseness_empty : conciseness "" = 0 := rfl

theorem filler_penalty_empty : filler_penalty "" = 0 := rfl

/-- For an empty answer the final score reduces to the rounded readability
contribution alone. -/
theorem overall_score_empty_final (gr : String → Option ℚ) (q : String) :
    (overall_score gr q "").final = round1 (20 * readability gr "") := by
  simp only [overall_score, combine]
  rw [relevance_empty_answer, structure_score_empty, conciseness_empty,
    filler_penalty_empty]
  obtain ⟨hr0, hr1⟩ := readability_bounds gr ""
  rw [show (0.3 * (0:ℚ) + 0.3 * 0 + 0.2 * 0 + 0.2 * readability gr "" - 0)
      = 0.2 * readability gr "" by ring]
  rw [min_eq_right (by linarith), max_eq_right (by linarith)]
  ring_nf

/-- C2 (amended): for the empty answer and any question, `conciseness` and
`relevance` are 0 as claimed, but `final` is not 0: it equals the rounded
readability contribution `round1(20·readability)` and lies in [6, 20],
because the readability sub-score never falls below 0.3 (even on the
degenerate-input and exception paths). -/
theorem overall_score_empty_answer (gr : String → Option ℚ) (q : String) :
    (overall_score gr q "").conciseness = 0 ∧
    (overall_score gr q "").relevance = 0 ∧
    6 ≤ (overall_score gr q "").final ∧ (overall_score gr q "").final ≤ 20 := by
  obtain ⟨hr0, hr1⟩ := readability_bounds gr ""
  refine ⟨?_, ?_, ?_, ?_⟩
  · simp only [overall_score]
    rw [conciseness_empty, show (0:ℚ) * 100 = 0 by norm_num, round1_zero']
  · simp only [overall_score]
    rw [relevance_empty_answer, show (0:ℚ) * 100 = 0 by norm_num, round1_zero']
  · rw [overall_score_empty_final]
    have := round1_mono (show (((6:ℕ):ℚ)) ≤ 20 * readability gr "" by
      push_cast; linarith)
    rw [round1_nat 6] at this; exact_mod_cast this
  · rw [overall_score_empty_final]
    have := round1_mono (show 20 * readability gr "" ≤ (((20:ℕ):ℚ)) by
      push_cast; linarith)
    rw [round1_nat 20] at this; exact_mod_cast this

/-- C2 (counterexample): with the readability library failing (exception
path, sub-score 0.6) — or indeed any other backend behaviour — the final
score of the empty answer is 12, not 0 as the claim states. -/
theorem overall_score_empty_answer_final_ne_zero :
    (overall_score (fun _ => none) "interview" "").final ≠ 0 := by
  rw [overall_score_empty_final]
  rw [show readability (fun _ => none) "" = 0.6 from rfl]
  rw [show (20 : ℚ) * 0.6 = ((12:ℕ):ℚ) by norm_num, round1_nat]
  norm_num

/-! ### C3 -/

theorem clampMono {u v : ℚ} (h : u ≤ v) : max 0 (min 1 u) ≤ max 0 (min 1 v) :=
  max_le_max le_rfl (min_le_min le_rfl h)

/-- C3: the combining function of `overall_score`
(`base = 0.3·rel + 0.3·stru + 0.2·conc + 0.2·read`,
`final = clamp(base − pen, 0, 1)·100`, rounded to one decimal) is
monotonically non-decreasing in each of the four positive sub-scores and
non-increasing in the filler penalty, the other arguments held fixed. -/
theorem combine_monotone (r r' s s' c c' d d' p p' : ℚ) :
    (r ≤ r' → combine r s c d p ≤ combine r' s c d p) ∧
    (s ≤ s' → combine r s c d p ≤ combine r s' c d p) ∧
    (c ≤ c' → combine r s c d p ≤ combine r s c' d p) ∧
    (d ≤ d' → combine r s c d p ≤ combine r s c d' p) ∧
    (p ≤ p' → combine r s c d p' ≤ combine r s c d p) := by
  refine ⟨?_, ?_, ?_, ?_, ?_⟩ <;> intro h <;> unfold combine <;>
    exact round1_mono
      (mul_le_mul_of_nonneg_right (clampMono (by linarith)) (by norm_num))

/-- Witness for C3 at concrete sub-score values. -/
theorem combine_monotone_witness :
    combine 0 0.5 0.5 0.5 0.1 ≤ combine 1 0.5 0.5 0.5 0.1 ∧
    combine 0.5 0 0.5 0.5 0.1 ≤ combine 0.5 1 0.5 0.5 0.1 ∧
    combine 0.5 0.5 0 0.5 0.1 ≤ combine 0.5 0.5 1 0.5 0.1 ∧
    combine 0.5 0.5 0.5 0 0.1 ≤ combine 0.5 0.5 0.5 1 0.1 ∧
    combine 0.5 0.5 0.5 0.5 0.2 ≤ combine 0.5 0.5 0.5 0.5 0.1 :=
  ⟨(combine_monotone 0 1 0.5 0.5 0.5 0.5 0.5 0.5 0.1 0.1).1 (by norm_num),
   (combine_monotone 0.5 0.5 0 1 0.5 0.5 0.5 0.5 0.1 0.1).2.1 (by norm_num),
   (combine_monotone 0.5 0.5 0.5 0.5 0 1 0.5 0.5 0.1 0.1).2.2.1 (by norm_num),
   (combine_monotone 0.5 0.5 0.5 0.5 0.5 0.5 0 1 0.1 0.1).2.2.2.1 (by norm_num),
   (combine_monotone 0.5 0.5 0.5 0.5 0.5 0.5 0.5 0.5 0.1 0.2).2.2.2.2
     (by norm_num)⟩

/-! ### C4 -/

/-- C4: the conciseness sub-score is exactly 1 (reported 100) iff the word
count lies in the band [150,300]; it is strictly below 1 outside the band
(0 for a word-less answer, `words/150` below the band, the 0-floored decay
above it), non-decreasing up to the band and non-increasing beyond it. -/
theorem conciseness_band (a : String) (n m : ℕ) :
    conciseness a = concWC ((wordsL a.data).length) ∧
    (150 ≤ n → n ≤ 300 → concWC n = 1) ∧
    (n < 150 ∨ 300 < n → concWC n < 1) ∧
    concWC 0 = 0 ∧
    (n < 150 → concWC n = ((n : ℕ) : ℚ) / 150) ∧
    (300 < n → concWC n = max 0 (1 - (((n : ℕ) : ℚ) - 300) / 400)) ∧
    (n ≤ m → m ≤ 300 → concWC n ≤ concWC m) ∧
    (300 ≤ n → n ≤ m → concWC m ≤ concWC n) := by
  have hband : ∀ k : ℕ, 150 ≤ k → k ≤ 300 → concWC k = 1 := by
    intro k h1 h2
    unfold concWC
    rw [if_neg (by omega), if_pos ⟨h1, h2⟩]
  have hlow : ∀ k : ℕ, k < 150 → concWC k = ((k : ℕ) : ℚ) / 150 := by
    intro k hk
    unfold concWC
    by_cases h0 : k = 0
    · subst h0; norm_num
    · rw [if_neg h0, if_neg (by omega), if_pos hk, max_eq_right (by positivity)]
  have hhigh : ∀ k : ℕ, 300 < k →
      concWC k = max 0 (1 - (((k : ℕ) : ℚ) - 300) / 400) := by
    intro k hk
    unfold concWC
    rw [if_neg (by omega), if_neg (by omega), if_neg (by omega)]
  have hlt : ∀ k : ℕ, (k < 150 ∨ 300 < k) → concWC k < 1 := by
    intro k hk
    rcases hk with hk | hk
    · rw [hlow k hk, div_lt_one (by norm_num)]
      exact_mod_cast hk
    · rw [hhigh k hk]
      apply max_lt (by norm_num)
      have h4 : (300 : ℚ) < (k : ℚ) := by exact_mod_cast hk
      have h5 : (0:ℚ) < ((k : ℚ) - 300) / 400 := div_pos (by linarith) (by norm_num)
      linarith
  have hup : ∀ k l : ℕ, k ≤ l → l ≤ 300 → concWC k ≤ concWC l := by
    intro k l hkl hl
    by_cases hlb : 150 ≤ l
    · rw [hband l hlb hl]; exact (concWC_bounds k).2
    · push_neg at hlb
      rw [hlow k (by omega), hlow l (by omega)]
      have : ((k : ℕ) : ℚ) ≤ ((l : ℕ) : ℚ) := by exact_mod_cast hkl
      linarith
  have hdown : ∀ k l : ℕ, 300 ≤ k → k ≤ l → concWC l ≤ concWC k := by
    intro k l hk hkl
    by_cases hkb : k ≤ 300
    · rw [hband k (by omega) hkb]; exact (concWC_bounds l).2
    · push_neg at hkb
      rw [hhigh k hkb, hhigh l (by omega)]
      apply max_le_max le_rfl
      have : ((k : ℕ) : ℚ) ≤ ((l : ℕ) : ℚ) := by exact_mod_cast hkl
      linarith
  exact ⟨rfl, hband n, hlt n, rfl, hlow n, hhigh n, hup n m, hdown n m⟩

/-- Witness for C4 at concrete word counts. -/
theorem conciseness_band_witness :
    concWC 200 = 1 ∧ concWC 100 < 1 ∧ concWC 0 = 0 ∧
    concWC 100 = ((100 : ℕ) : ℚ) / 150 ∧
    concWC 500 = max 0 (1 - (((500 : ℕ) : ℚ) - 300) / 400) ∧
    concWC 100 ≤ concWC 200 ∧ concWC 500 ≤ concWC 400 ∧
    conciseness "one two three" = concWC ((wordsL ("one two three".data)).length) :=
  ⟨(conciseness_band "" 200 200).2.1 (by norm_num) (by norm_num),
   (conciseness_band "" 100 100).2.2.1 (Or.inl (by norm_num)),
   (conciseness_band "" 0 0).2.2.2.1,
   (conciseness_band "" 100 100).2.2.2.2.1 (by norm_num),
   (conciseness_band "" 500 500).2.2.2.2.2.1 (by norm_num),
   (conciseness_band "" 100 200).2.2.2.2.2.2.1 (by norm_num) (by norm_num),
   (conciseness_band "" 400 500).2.2.2.2.2.2.2 (by norm_num) (by norm_num),
   (conciseness_band "one two three" 0 0).1⟩

/-! ### C5 -/

/-- Modelled from the spec: the filler count as the specification words it
— "count occurrences of a fixed filler-phrase set (case-insensitive
whole-word/phrase match)" — i.e. the phrase is lowercased along with the
text, so that `"I guess"` also matches.  The source instead lowercases only
the text and matches the phrase verbatim. -/
def detect_fillers_spec (text : String) : ℕ :=
  (FILLERS.map
    (fun f => countFillerAux (lowerL f.data) (lowerL text.data) false 0)).sum

/-- Modelled from the spec: the filler penalty computed from the
case-insensitive filler count. -/
def filler_penalty_spec (a : String) : ℚ :=
  let words := (wordsL a.data).length
  if words = 0 then 0
  else min 0.2 (((detect_fillers_spec a : ℚ) / (words : ℚ)) * 20)

/-- C5 (code bug): the source lowercases the answer but builds the pattern
for the filler phrase `"I guess"` with its capital `I` intact, so that
phrase can never match; on the answer "I guess it went well" the source
counts 0 fillers and assigns penalty 0, while the spec's case-insensitive
count is 1 with penalty `min(0.2, (1/5)·20) = 0.2`. -/
theorem filler_penalty_i_guess :
    detect_fillers "I guess it went well" = 0 ∧
    filler_penalty "I guess it went well" = 0 ∧
    detect_fillers_spec "I guess it went well" = 1 ∧
    filler_penalty_spec "I guess it went well" = 1 / 5 := by
  refine ⟨by decide, ?_, by decide, ?_⟩
  · simp only [filler_penalty]
    rw [show (wordsL ("I guess it went well".data)).length = 5 from by decide]
    rw [show detect_fillers "I guess it went well" = 0 from by decide]
    norm_num [min_def]
  · simp only [filler_penalty_spec]
    rw [show (wordsL ("I guess it went well".data)).length = 5 from by decide]
    rw [show detect_fillers_spec "I guess it went well" = 1 from by decide]
    norm_num [min_def]

/-! ### C6 -/

theorem derive_keywords_ne_nil (wl : List String) (text : String) (k : ℕ)
    (hk : 1 ≤ k) : derive_keywords wl text k ≠ [] := by
  simp only [derive_keywords]
  by_cases h : (deriveCleanedL (wl.map String.data) text.data).isEmpty
  · rw [if_pos h]; simp
  · rw [if_neg h]
    obtain ⟨x, xs, hx⟩ :=
      List.exists_cons_of_ne_nil (by simpa [List.isEmpty_iff] using h)
    rw [hx]
    obtain ⟨k', rfl⟩ := Nat.exists_eq_add_of_le hk
    simp

/-- C6: for every input text, every whitelist iteration order and every
`k ≥ 1` (the source calls it with the default `k = 8`), `derive_keywords`
returns a non-empty list of at most `k` entries, and returns exactly the
sentinel phrase when no candidate survives the filters. -/
theorem derive_keywords_never_empty (wl : List String) (text : String)
    (k : ℕ) (hk : 1 ≤ k) :
    derive_keywords wl text k ≠ [] ∧
    (derive_keywords wl text k).length ≤ k ∧
    (deriveCleanedL (wl.map String.data) text.data = [] →
      derive_keywords wl text k = [SENTINEL]) := by
  refine ⟨derive_keywords_ne_nil wl text k hk, ?_, ?_⟩
  · simp only [derive_keywords]
    by_cases h : (deriveCleanedL (wl.map String.data) text.data).isEmpty
    · rw [if_pos h]; simpa using hk
    · rw [if_neg h]
      simp only [List.length_map, List.length_take]
      exact min_le_left _ _
  · intro h
    simp only [derive_keywords]
    rw [if_pos (by simp [h])]

/-- Witness for C6 at the empty input text and the default `k = 8`. -/
theorem derive_keywords_never_empty_witness :
    1 ≤ 8 ∧
    (derive_keywords WHITELIST "" 8 ≠ [] ∧
     (derive_keywords WHITELIST "" 8).length ≤ 8 ∧
     (deriveCleanedL (WHITELIST.map String.data) ("".data) = [] →
       derive_keywords WHITELIST "" 8 = [SENTINEL])) :=
  ⟨by norm_num, derive_keywords_never_empty WHITELIST "" 8 (by norm_num)⟩

/-! ### C9 -/

theorem genCat_ne_nil (ts : List (String → String)) (kws : List String)
    (h : kws ≠ []) : genCat ts kws ≠ [] := by
  obtain ⟨x, xs, rfl⟩ := List.exists_cons_of_ne_nil h
  simp only [genCat, List.enum_cons, List.map_cons, firstDedup]
  simp

/-- C9: `generate_spec_questions` maps every raw job-description text (and
any whitelist iteration order) to a pool whose three category lists are all
non-empty — the zero-keyword case is unreachable because `derive_keywords`
never returns an empty list. -/
theorem generate_spec_questions_nonempty (wl : List String) (raw : String) :
    (generate_spec_questions wl raw).behavioral ≠ [] ∧
    (generate_spec_questions wl raw).situational ≠ [] ∧
    (generate_spec_questions wl raw).technical ≠ [] := by
  have hkw := derive_keywords_ne_nil wl raw 8 (by norm_num)
  simp only [generate_spec_questions]
  exact ⟨genCat_ne_nil _ _ hkw, genCat_ne_nil _ _ hkw, genCat_ne_nil _ _ hkw⟩

/-! ### C10 -/

/-- C10: the `structure`, `conciseness`, `readability`, `tokens_est` and
`filler_penalty` fields of `overall_score` are functions of the answer
alone — scoring the same answer against two different questions changes at
most the `relevance` and `final` fields. -/
theorem overall_score_question_independent (gr : String → Option ℚ)
    (q1 q2 a : String) :
    (overall_score gr q1 a).structure' = (overall_score gr q2 a).structure' ∧
    (overall_score gr q1 a).conciseness = (overall_score gr q2 a).conciseness ∧
    (overall_score gr q1 a).readability = (overall_score gr q2 a).readability ∧
    (overall_score gr q1 a).tokens_est = (overall_score gr q2 a).tokens_est ∧
    (overall_score gr q1 a).filler_penalty =
      (overall_score gr q2 a).filler_penalty :=
  ⟨rfl, rfl, rfl, rfl, rfl⟩

/-! ### C8 -/

theorem mem_firstDedup {α : Type} [DecidableEq α] (a : α) :
    ∀ l : List α, a ∈ firstDedup l ↔ a ∈ l := by
  intro l
  induction l with
  | nil => simp [firstDedup]
  | cons x xs ih =>
      simp only [firstDedup, List.mem_cons, List.mem_filter]
      by_cases hax : a = x
      · simp [hax]
      · simp [hax, ih]

theorem nodup_firstDedup {α : Type} [DecidableEq α] :
    ∀ l : List α, (firstDedup l).Nodup := by
  intro l
  induction l with
  | nil => simp [firstDedup]
  | cons x xs ih =>
      simp only [firstDedup]
      refine List.nodup_cons.mpr ⟨?_, List.Nodup.filter _ ih⟩
      intro hx
      rcases List.mem_filter.mp hx with ⟨_, h2⟩
      simp at h2

theorem firstDedup_perm {α : Type} [DecidableEq α] {l1 l2 : List α}
    (h : l1.Perm l2) : (firstDedup l1).Perm (firstDedup l2) := by
  refine (List.perm_ext_iff_of_nodup (nodup_firstDedup l1)
    (nodup_firstDedup l2)).mpr ?_
  intro a
  rw [mem_firstDedup, mem_firstDedup]
  exact h.mem_iff

theorem firstDedup_filter_perm {B U : List (List Char)} {p : List Char → Bool}
    {o1 o2 : List (List Char)} (h : o1.Perm o2) (ok : List Char → Bool) :
    (firstDedup ((B ++ o1.filter p ++ U).filter ok)).Perm
      (firstDedup ((B ++ o2.filter p ++ U).filter ok)) :=
  firstDedup_perm (List.Perm.filter ok
    (((h.filter p).append_left B).append_right U))

/-- C8 (amended): `overall_score` is a pure function of the question and
answer (given the readability backend), and `derive_keywords` is a pure
function of the text *and the iteration order of the `_WHITELIST` set*:
with the order fixed, repeated invocations agree, and for two
permutation-equivalent iteration orders the candidate lists are equal up to
permutation and the final keyword lists have equal length — but, as the
counterexample shows, not necessarily equal contents order, because the
`tech_hits` block follows the ambient set iteration order. -/
theorem derive_keywords_perm_of_order (o1 o2 : List String) (h : o1.Perm o2)
    (text : String) (k : ℕ) :
    (deriveCleanedL (o1.map String.data) text.data).Perm
      (deriveCleanedL (o2.map String.data) text.data) ∧
    (derive_keywords o1 text k).length = (derive_keywords o2 text k).length := by
  have hp : (deriveCleanedL (o1.map String.data) text.data).Perm
      (deriveCleanedL (o2.map String.data) text.data) := by
    simp only [deriveCleanedL]
    exact firstDedup_filter_perm (h.map String.data) okTerm
  refine ⟨hp, ?_⟩
  simp only [derive_keywords]
  by_cases h1 : deriveCleanedL (o1.map String.data) text.data = []
  · have h2 : deriveCleanedL (o2.map String.data) text.data = [] := by
      rw [h1] at hp; exact hp.symm.eq_nil
    rw [h1, h2]
  · have h2 : ¬ deriveCleanedL (o2.map String.data) text.data = [] := by
      intro h2; rw [h2] at hp; exact h1 hp.eq_nil
    rw [if_neg (by simpa using h1), if_neg (by simpa using h2)]
    simp only [List.length_map, List.length_take]
    rw [hp.length_eq]

/-- C8 (counterexample): two legitimate iteration orders of the
`_WHITELIST` set — its listing order, and the same order with `"sql"` and
`"aws"` transposed — give different keyword lists for the same text, so the
output is not independent of the ambient set iteration order. -/
theorem derive_keywords_order_dependent :
    WHITELIST.Perm ("aws" :: "sql" :: WHITELIST.drop 2) ∧
    derive_keywords WHITELIST "sql aws sql aws" 8 ≠
      derive_keywords ("aws" :: "sql" :: WHITELIST.drop 2) "sql aws sql aws" 8 := by
  constructor
  · exact List.Perm.swap "aws" "sql" (WHITELIST.drop 2)
  · decide

/-- Witness for C8 at the transposed whitelist order. -/
theorem derive_keywords_perm_of_order_witness :
    (deriveCleanedL (WHITELIST.map String.data) ("sql aws sql aws".data)).Perm
      (deriveCleanedL (("aws" :: "sql" :: WHITELIST.drop 2).map String.data)
        ("sql aws sql aws".data)) ∧
    (derive_keywords WHITELIST "sql aws sql aws" 8).length =
      (derive_keywords ("aws" :: "sql" :: WHITELIST.drop 2)
        "sql aws sql aws" 8).length :=
  derive_keywords_perm_of_order WHITELIST ("aws" :: "sql" :: WHITELIST.drop 2)
    (List.Perm.swap "aws" "sql" (WHITELIST.drop 2)) "sql aws sql aws" 8

/-! ### C7 -/

theorem splitRunsAux_append (p : Char → Bool) (run : List Char) :
    ∀ (rest acc : List Char), (∀ c ∈ run, p c = true) →
    splitRunsAux p (run ++ rest) acc = splitRunsAux p rest (run.reverse ++ acc) := by
  induction run with
  | nil => intro rest acc _; simp
  | cons r rs ih =>
      intro rest acc hall
      have hr : p r = true := hall r (by simp)
      simp only [List.cons_append, splitRunsAux, hr, if_true, List.append_eq]
      rw [ih rest (r :: acc) (fun c hc => hall c (by simp [hc]))]
      simp

theorem splitRuns_single (p : Char → Bool) (u : List Char)
    (hall : ∀ c ∈ u, p c = true) (hne : u ≠ []) : splitRuns p u = [u] := by
  unfold splitRuns
  have h := splitRunsAux_append p u [] [] hall
  rw [List.append_nil] at h
  rw [h]
  simp [splitRunsAux, hne]

theorem splitRuns_double (p : Char → Bool) (u : List Char)
    (hall : ∀ c ∈ u, p c = true) (hne : u ≠ []) (hsp : p ' ' = false) :
    splitRuns p (u ++ ' ' :: u) = [u, u] := by
  unfold splitRuns
  rw [splitRunsAux_append p u (' ' :: u) [] hall]
  simp only [splitRunsAux, hsp, Bool.false_eq_true, if_false,
    List.append_nil, List.isEmpty_eq_true, List.reverse_eq_nil_iff, hne,
    List.reverse_reverse]
  have h2 : splitRunsAux p u [] = [u] := splitRuns_single p u hall hne
  rw [h2]

theorem lowerCh_fixed {c : Char} (h : isTokChar c = true) : lowerCh c = c := by
  unfold lowerCh
  rw [if_neg]
  intro hcond
  simp only [Bool.and_eq_true, decide_eq_true_eq] at hcond
  simp only [isTokChar, isLowerAlpha, isDigitCh, Bool.or_eq_true,
    Bool.and_eq_true, decide_eq_true_eq, beq_iff_eq] at h
  omega

theorem isSpaceCh_tok {c : Char} (h : isTokChar c = true) :
    isSpaceCh c = false := by
  simp only [isTokChar, isLowerAlpha, isDigitCh, Bool.or_eq_true,
    Bool.and_eq_true, decide_eq_true_eq, beq_iff_eq] at h
  simp only [isSpaceCh, Bool.or_eq_false_iff, beq_eq_false_iff_ne, ne_eq]
  omega

theorem isTokChar_of_lower {c : Char} (h : isLowerAlpha c = true) :
    isTokChar c = true := by
  simp [isTokChar, h]

theorem firstDedup_single {α : Type} [DecidableEq α] (u : α) :
    firstDedup [u] = [u] := by simp [firstDedup]

theorem firstDedup_pair {α : Type} [DecidableEq α] (u : α) :
    firstDedup [u, u] = [u] := by simp [firstDedup]

theorem countOf_pair_self (u : List Char) : countOf [u, u] u = 2 := by
  simp [countOf, List.filter]

theorem countOf_single_self (b : List Char) : countOf [b] b = 1 := by
  simp [countOf, List.filter]

theorem mostCommon_singleton (x : List Char × ℕ) (n : ℕ) (hn : 1 ≤ n) :
    mostCommon [x] n = [x] := by
  simp only [mostCommon, sortByB, List.enum, List.enumFrom, List.foldr,
    insertSorted, List.map_cons, List.map_nil]
  exact List.take_of_length_le (by simpa using hn)

/-- C7 (counterexample): the claim fails already at repetition count
`n = 1` for the valid lowercase token "hello" (length ≥ 3): a single
occurrence has unigram count 1, the `count > 1` selection threshold drops
it, and the sentinel is returned instead of `["hello"]`.  (For `n ≥ 3` the
claim also fails: the doubled bigram "hello hello" reaches count `n−1 > 1`
and is returned instead of the unigram.) -/
theorem derive_keywords_single_token_once :
    derive_keywords WHITELIST "hello" 8 ≠ ["hello"] := by decide

/-- C7 (amended): extraction of a repeated valid token returns exactly that
token for repetition count 2 (not for every `n ≥ 1`): if `w` is a valid
lowercase token (letter head, token-character tail, length ≥ 3), is neither
whitelisted nor a stop word, no preference term occurs inside the doubled
phrase, and the cleaning pass leaves the doubled text unchanged, then
`derive_keywords` on "w w" returns `[w]`, for any iteration order of the
whitelist set. -/
theorem derive_keywords_doubled_token (w text : String) (wl : List String)
    (c : Char) (cs : List Char)
    (hw : w.data = c :: cs)
    (hc : isLowerAlpha c = true)
    (hcs : ∀ x ∈ cs, isTokChar x = true)
    (hlen : 3 ≤ w.data.length)
    (hwl : ∀ u ∈ wl, u ∈ WHITELIST)
    (hnotwl : w.data ∉ WHITELISTL)
    (hnotstop : w.data ∉ STOPL)
    (hpref : ∀ p ∈ PREFL, containsSub p (w.data ++ ' ' :: w.data) = false)
    (htext : text.data = w.data ++ ' ' :: w.data)
    (hclean : cleanJD text.data = text.data) :
    derive_keywords wl text 8 = [w] := by
  have halltok : ∀ x ∈ w.data, isTokChar x = true := by
    intro x hx
    rw [hw] at hx
    rcases List.mem_cons.mp hx with h | h
    · subst h; exact isTokChar_of_lower hc
    · exact hcs x h
  have hne : w.data ≠ [] := by rw [hw]; simp
  have hnotwlb : WHITELISTL.contains w.data = false := by simpa using hnotwl
  have hnotstopb : STOPL.contains w.data = false := by simpa using hnotstop
  -- tokenization of the doubled text
  have hlower : lowerL (w.data ++ ' ' :: w.data) = w.data ++ ' ' :: w.data := by
    unfold lowerL
    rw [List.map_append, List.map_cons]
    have hmap : w.data.map lowerCh = w.data := by
      conv_rhs => rw [← List.map_id w.data]
      exact List.map_congr_left (fun x hx => lowerCh_fixed (halltok x hx))
    rw [hmap, show lowerCh ' ' = ' ' from by decide]
  have hsplit : splitRuns isTokChar (w.data ++ ' ' :: w.data) = [w.data, w.data] :=
    splitRuns_double _ _ halltok hne (by decide)
  have hdrop : w.data.dropWhile (fun x => !isLowerAlpha x) = w.data := by
    rw [hw, List.dropWhile_cons]
    simp [hc]
  have hlen2 : 2 ≤ w.data.length := by omega
  have htok : tokenizeL (w.data ++ ' ' :: w.data) = [w.data, w.data] := by
    unfold tokenizeL
    rw [hlower, hsplit]
    simp [List.filterMap_cons, hdrop, hlen2, show 2 ≤ w.length from hlen2]
  have hfiltlen :
      List.filter (fun v => 3 ≤ v.length || WHITELISTL.contains v)
        [w.data, w.data] = [w.data, w.data] := by
    simp [List.filter, hlen, show 3 ≤ w.length from hlen]
  -- bigram side: single bigram with count 1, never selected
  have hbig : bigramsL [w.data, w.data] = [w.data ++ ' ' :: w.data] := by
    simp [bigramsL]
  have hanypref :
      PREFL.any (fun p => containsSub p (w.data ++ ' ' :: w.data)) = false := by
    by_contra hcontra
    rw [Bool.not_eq_false] at hcontra
    obtain ⟨x, hx, hpx⟩ := List.any_eq_true.mp hcontra
    rw [hpref x hx] at hpx
    exact Bool.false_ne_true hpx
  have hcb : cbItems [w.data ++ ' ' :: w.data] =
      [(w.data ++ ' ' :: w.data, 1)] := by
    unfold cbItems bigScore
    rw [firstDedup_single]
    simp [hanypref, countOf_single_self]
    exact hpref
  -- unigram side: single key with score 2, selected
  have hcu : cuItems [w.data, w.data] = [(w.data, 2)] := by
    unfold cuItems uniScore
    rw [firstDedup_pair]
    simp [hnotstopb, hnotwlb, hnotstop, hnotwl, countOf_pair_self]
  -- whitelist hits: none, since w is not whitelisted
  have htech : ∀ o : List (List Char), (∀ v ∈ o, v ∈ WHITELISTL) →
      List.filter (fun v => List.contains [w.data, w.data] v) o = [] := by
    intro o ho
    rw [List.filter_eq_nil_iff]
    intro v hv hcontains
    have hveq : v = w.data := by
      simp only [List.contains_cons, List.contains_nil, Bool.or_false,
        Bool.or_eq_true, beq_iff_eq] at hcontains
      tauto
    exact hnotwl (hveq ▸ ho v hv)
  have hwl2 : ∀ v ∈ wl.map String.data, v ∈ WHITELISTL := by
    intro v hv
    obtain ⟨s, hs, rfl⟩ := List.mem_map.mp hv
    exact List.mem_map_of_mem String.data (hwl s hs)
  -- the final candidate filter keeps w
  have hsplitw : pySplitL w.data = [w.data] := by
    unfold pySplitL
    exact splitRuns_single _ _
      (fun x hx => by rw [Bool.not_eq_true', isSpaceCh_tok (halltok x hx)]) hne
  have hok : okTerm w.data = true := by
    unfold okTerm
    rw [hsplitw]
    simp [hnotstopb, hnotstop]
  -- assemble the pipeline
  have hcleaned : deriveCleanedL (wl.map String.data) text.data = [w.data] := by
    simp only [deriveCleanedL]
    rw [hclean, htext, htok, hfiltlen, hbig, hcb, hcu]
    rw [mostCommon_singleton _ 20 (by norm_num),
      mostCommon_singleton _ 30 (by norm_num)]
    rw [htech (wl.map String.data) hwl2]
    simp [hnotstopb, hnotstop, hok, firstDedup_single]
  simp only [derive_keywords]
  rw [hcleaned, if_neg (by simp)]
  exact rfl

/-- Witness for C7 at the token "hello" doubled, with the whitelist in
listing order. -/
theorem derive_keywords_doubled_token_witness :
    "hello".data = 'h' :: "ello".data ∧
    isLowerAlpha 'h' = true ∧
    (∀ x ∈ "ello".data, isTokChar x = true) ∧
    3 ≤ "hello".data.length ∧
    (∀ u ∈ WHITELIST, u ∈ WHITELIST) ∧
    "hello".data ∉ WHITELISTL ∧
    "hello".data ∉ STOPL ∧
    (∀ p ∈ PREFL, containsSub p ("hello".data ++ ' ' :: "hello".data) = false) ∧
    "hello hello".data = "hello".data ++ ' ' :: "hello".data ∧
    cleanJD ("hello hello".data) = "hello hello".data ∧
    derive_keywords WHITELIST "hello hello" 8 = ["hello"] :=
  ⟨by decide, by decide, by decide, by decide, fun u hu => hu, by decide,
   by decide, by decide, by decide, by decide,
   derive_keywords_doubled_token "hello" "hello hello" WHITELIST 'h'
     ("ello".data) (by decide) (by decide) (by decide) (by decide)
     (fun u hu => hu) (by decide) (by decide) (by decide) (by decide)
     (by decide)⟩

/-! ### Concrete evaluations of the embedding

A few closed evaluations documenting that the embedded pipeline computes
the same values as the Python program on sample inputs. -/

example : wordsL ("hello, world".data) = ["hello".data, "world".data] := by decide
example : firstDedup ["a", "b", "a"] = ["a", "b"] := by decide
example : detect_fillers "Um, I was like, you know" = 3 := by decide
example : String.mk (cleanJD ("You will lead".data)) = " lead" := by decide
example : String.mk (cleanJD ("ab   cd".data)) = "ab cd" := by decide
example : tokenizeL ("CI/CD, b2b & 9abc x".data) =
    ["ci/cd".data, "b2b".data, "abc".data] := by decide
example : derive_keywords WHITELIST "hello" 8 = ["key responsibilities"] := by
  decide
example : derive_keywords WHITELIST "hello hello hello" 8 = ["hello hello"] := by
  decide
example : derive_keywords WHITELIST "sql aws sql aws" 8 =
    ["sql aws", "aws sql", "sql", "aws"] := by decide
example : conciseness "one two three" = 3 / 150 := by
  have h : (wordsL ("one two three".data)).length = 3 := by decide
  rw [conciseness, h]; norm_num [concWC, max_def]
example : structure_score "the situation and the task" = 0.45 := by
  rw [structure_score]
  rw [show coverVal STAR_S (lowerL ("the situation and the task".data)) = 1 from by
    rw [coverVal, if_pos]; decide]
  rw [show coverVal STAR_T (lowerL ("the situation and the task".data)) = 1 from by
    rw [coverVal, if_pos]; decide]
  rw [show coverVal STAR_A (lowerL ("the situation and the task".data)) = 0 from by
    rw [coverVal, if_neg]; decide]
  rw [show coverVal STAR_R (lowerL ("the situation and the task".data)) = 0 from by
    rw [coverVal, if_neg]; decide]
  norm_num
